import Mathlib

/-!
Shallow embedding of `src/main.rs` of the tarballer repository.

The program batch-archives every immediate subdirectory of a target
directory into a tar file named after the subdirectory, optionally
deleting the source subdirectory afterwards, with a dry-run mode.

Modelling conventions:
* A Rust `OsStr` path component is modelled by `OsStr`: the field `s`
  stands for its byte content and `utf8` records whether those bytes are
  valid UTF-8, so that `OsStr.toStr` models Rust `OsStr::to_str` (the
  `Option`-returning conversion whose `unwrap` can abort the process).
* A filesystem path (`Path` / `PathBuf`) is a list of components.
* The result of `std::fs::read_dir` on the root is given as a list of
  `DirEntry` values: the component name, the result of `path.is_dir()`,
  and (for directories) the recursive relative entry names that
  `tar::Builder::append_dir_all` would walk at archive time.  Bundling
  the recursive contents into the entry replaces the filesystem lookup
  that the tar library performs.
* Every observable action (a `println`, a `File::create`, an
  `append_dir_all`, a `remove_dir_all` attempt, a blocking read of one
  line from stdin) is recorded as an `Event` in a trace.
* Fallible filesystem calls are driven by oracles: `EntryOracle` gives
  the outcome of `File::create` and `append_dir_all` for one map entry,
  and the list `rm` gives the outcomes of the successive
  `std::fs::remove_dir_all` calls made by `remove_dir`.
* A Rust `unwrap` on a failed result is a process abort; functions
  return `Option String` / `Except String _` where `some msg` /
  `Except.error msg` is the abort, and an abort stops the whole run.
-/

/-- One path component as the OS hands it over: `s` stands for the raw
bytes, `utf8` says whether they form valid UTF-8 text. -/
structure OsStr where
  s : String
  utf8 : Bool
deriving DecidableEq, Repr

/-- Models `OsStr::to_str`: `some` exactly when the bytes are UTF-8. -/
def OsStr.toStr (o : OsStr) : Option String :=
  if o.utf8 then some o.s else none

/-- A filesystem path is a list of components (`Path` / `PathBuf`). -/
abbrev FsPath : Type := List OsStr

/-- Lossy rendering of a path, as the debug formatting `{:?}` used by the
verbose prints (which works on non-UTF-8 paths as well). -/
def pathRepr (p : FsPath) : String :=
  String.intercalate "/" (p.map (fun c => c.s))

/-- Models `Path::to_str`: defined exactly when every component is
valid UTF-8, in which case it agrees with the rendering. -/
def pathToStr (p : FsPath) : Option String :=
  if p.all (fun c => c.utf8) then some (pathRepr p) else none

/-- One immediate child of the root directory as returned by
`read_dir`: its base name, the result of `path.is_dir()` (after symlink
resolution, as in Rust), and the recursive relative entry names found
under it when it is a directory. -/
structure DirEntry where
  name : OsStr
  isDir : Bool
  contents : List String
deriving DecidableEq, Repr

/-- The value stored in the name-to-path map: the full path of the
subdirectory together with the recursive contents the archive builder
will find there. -/
structure SrcDir where
  path : FsPath
  contents : List String
deriving DecidableEq, Repr

/-- Outcome of one `std::fs::remove_dir_all` call, by `ErrorKind`. -/
inductive RmOutcome where
  | ok
  | notFound
  | busy
  | permDenied
  | other (msg : String)
deriving DecidableEq, Repr

/-- Observable actions of the program. -/
inductive Event where
  | print (s : String)
  | createFile (path : String)
  | appendDirAll (dest : String) (root : String) (names : List String)
  | removeDirAll (path : String) (outcome : RmOutcome)
  | readLine
deriving DecidableEq, Repr

/-- Result of one `remove_dir` invocation: normal return after a
successful delete or a not-found delete, abandonment on an
unclassified error, or `pending` when the supplied oracle ran out while
the loop was still retrying a recoverable error. -/
inductive RmResult where
  | success
  | abandoned (msg : String)
  | pending
deriving DecidableEq, Repr

/-- A `println` guarded by `if verbose`. -/
def vprint (v : Bool) (s : String) : List Event :=
  if v then [Event.print s] else []

/-- `HashMap::insert` on the association-list model: replaces the value
when the key is present, appends otherwise. -/
def insertAL (m : List (String × SrcDir)) (k : String) (val : SrcDir) :
    List (String × SrcDir) :=
  if m.any (fun kv => kv.1 == k) then
    m.map (fun kv => if kv.1 == k then (k, val) else kv)
  else
    m ++ [(k, val)]

/-- First loop of `pathfinder` (main.rs lines 71 to 86): iterate the
`read_dir` entries, print each path when verbose, and keep those whose
`is_dir()` holds. -/
def pathfinderScan (v : Bool) (cd : FsPath) :
    List DirEntry → List Event × List DirEntry
  | [] => ([], [])
  | d :: rest =>
    let p : FsPath := cd ++ [d.name]
    let t0 := vprint v ("Path: " ++ pathRepr p)
    let r := pathfinderScan v cd rest
    if d.isDir then
      (t0 ++ vprint v ("Folder path detected: " ++ pathRepr p) ++ r.1, d :: r.2)
    else
      (t0 ++ r.1, r.2)

/-- Second loop of `pathfinder` (main.rs lines 89 to 102): for each kept
folder path take `file_name().unwrap().to_str().unwrap()` (the second
unwrap aborts on a non-UTF-8 base name), build the tarball name by
appending `.tar`, and insert it into the map with the folder path as
value. -/
def pathfinderBuild (v : Bool) (cd : FsPath) (m : List (String × SrcDir)) :
    List DirEntry → List Event × Except String (List (String × SrcDir))
  | [] => ([], Except.ok m)
  | d :: rest =>
    match (cd ++ [d.name] : FsPath).getLast? with
    | none => ([], Except.error "called Option.unwrap on a None value")
    | some fname =>
      match fname.toStr with
      | none => ([], Except.error "called Option.unwrap on a None value")
      | some folderName =>
        let t0 := vprint v ("Folder name: " ++ folderName)
        let tn := folderName ++ ".tar"
        let t1 := t0 ++ vprint v ("Tarball name: " ++ tn)
        let r := pathfinderBuild v cd
          (insertAL m tn (SrcDir.mk (cd ++ [d.name]) d.contents)) rest
        (t1 ++ r.1, r.2)

/-- `pathfinder` (main.rs lines 61 to 110): scan the root directory and
return the map from tarball name to folder path, with all verbose
prints.  The list `ds` is the successful `read_dir` listing. -/
def pathfinder (v : Bool) (cd : FsPath) (ds : List DirEntry) :
    List Event × Except String (List (String × SrcDir)) :=
  let t0 := vprint v ("Working directory: " ++ pathRepr cd)
  let sc := pathfinderScan v cd ds
  let b := pathfinderBuild v cd [] sc.2
  match b.2 with
  | Except.error msg => (t0 ++ sc.1 ++ b.1, Except.error msg)
  | Except.ok m =>
      (t0 ++ sc.1 ++ b.1 ++
        vprint v ("Tarball names and paths: " ++
          String.intercalate ", " (m.map Prod.fst)),
       Except.ok m)

/-- Entry names that `tar::Builder::append_dir_all(root, src)` records
in the archive: the root itself, then every relative entry of `src`
placed under `root`. -/
def archiveEntryNames (root : String) (contents : List String) : List String :=
  root :: contents.map (fun rel => root ++ "/" ++ rel)

/-- Oracle for the fallible calls made while processing one map entry:
whether `File::create` succeeds, whether `append_dir_all` succeeds, and
the outcomes of the successive `remove_dir_all` attempts. -/
structure EntryOracle where
  createOk : Bool
  appendOk : Bool
  rm : List RmOutcome
deriving DecidableEq, Repr

/-- Oracle used when the supplied oracle list is exhausted. -/
def defaultOracle : EntryOracle :=
  EntryOracle.mk true true [RmOutcome.ok]

/-- `remove_dir` (main.rs lines 179 to 222): loop issuing
`remove_dir_all`, consuming one oracle outcome per attempt.  Success and
not-found end the loop; busy and permission-denied print a prompt,
block on one line of stdin and retry; any other kind logs when verbose
and abandons the removal. -/
def remove_dir (path : String) (v : Bool) :
    List RmOutcome → List Event × RmResult
  | [] => (vprint v ("Attempting to remove folder: " ++ path), RmResult.pending)
  | o :: rest =>
    let t0 := vprint v ("Attempting to remove folder: " ++ path) ++
      [Event.removeDirAll path o]
    match o with
    | RmOutcome.ok =>
        (t0 ++ vprint v ("Removed folder: " ++ path), RmResult.success)
    | RmOutcome.notFound =>
        (t0 ++ vprint v ("Folder not found: " ++ path), RmResult.success)
    | RmOutcome.busy =>
        let r := remove_dir path v rest
        (t0 ++ [Event.print ("Folder is busy: " ++ path),
                Event.print "Please close any open files in the folder and press Enter to retry.",
                Event.readLine] ++ r.1, r.2)
    | RmOutcome.permDenied =>
        let r := remove_dir path v rest
        (t0 ++ [Event.print ("Permission denied: " ++ path),
                Event.print "Please check your permissions (you may have a file open inside the directory) and press Enter to retry.",
                Event.readLine] ++ r.1, r.2)
    | RmOutcome.other msg =>
        (t0 ++ vprint v ("Error removing folder: " ++ msg), RmResult.abandoned msg)

/-- Body of the `tarballer` loop for one map entry (main.rs lines 121
to 175).  Returns the trace and `some msg` when an `unwrap` aborts the
process: on a non-UTF-8 folder path (line 126), a non-UTF-8 current
directory (line 130), a failed `File::create` (line 155) or a failed
`append_dir_all` (line 157). -/
def tarballEntry (dry v remove : Bool) (cd : FsPath) (kv : String × SrcDir)
    (o : EntryOracle) : List Event × Option String :=
  let tn := kv.1
  let t0 := vprint v ("Tarball name: " ++ tn)
  match pathToStr kv.2.path with
  | none => (t0, some "called Option.unwrap on a None value")
  | some fp =>
    let t1 := t0 ++ vprint v ("Folder path: " ++ fp)
    match pathToStr cd with
    | none => (t1, some "called Option.unwrap on a None value")
    | some cds =>
      let tp := cds ++ "/" ++ tn
      let t2 := t1 ++ vprint v ("Tarball path: " ++ tp) ++
        vprint v ("Tarball path as String: " ++ tp)
      if dry then
        (t2 ++ [Event.print ("Dry run - would tarball folder: " ++ fp),
                Event.print (if remove then "Dry run - would remove folder: " ++ fp
                  else "Dry run - would NOT remove folder: " ++ fp)], none)
      else
        let t3 := t2 ++ vprint v ("Tarballing folder: " ++ fp)
        if o.createOk then
          let t4 := t3 ++ [Event.createFile tp]
          if o.appendOk then
            let t5 := t4 ++
              [Event.appendDirAll tp fp (archiveEntryNames fp kv.2.contents)] ++
              vprint v ("Tarball created: " ++ tn)
            if remove then
              let r := remove_dir fp v o.rm
              (t5 ++ vprint v ("Removing folder: " ++ fp) ++ r.1, none)
            else
              (t5 ++ vprint v ("Not removing folder: " ++ fp), none)
          else
            (t4, some "append_dir_all failed")
        else
          (t3, some "File create failed")

/-- `tarballer` (main.rs lines 113 to 177): process each map entry in
order, aborting the whole run on the first panic. -/
def tarballer (dry v remove : Bool) (m : List (String × SrcDir)) (cd : FsPath)
    (os : List EntryOracle) : List Event × Option String :=
  match m with
  | [] => ([], none)
  | kv :: rest =>
    let r := tarballEntry dry v remove cd kv (os.headD defaultOracle)
    match r.2 with
    | some msg => (r.1, some msg)
    | none =>
      let r2 := tarballer dry v remove rest cd os.tail
      (r.1 ++ r2.1, r2.2)

/-- The run after argument parsing and target resolution (main.rs lines
30 to 40): `pathfinder` then `tarballer`; a panic in `pathfinder`
aborts before `tarballer` runs. -/
def runTarballer (v dry remove : Bool) (cd : FsPath) (ds : List DirEntry)
    (os : List EntryOracle) : List Event × Option String :=
  let pf := pathfinder v cd ds
  match pf.2 with
  | Except.error msg => (pf.1, some msg)
  | Except.ok m =>
    let r := tarballer dry v remove m cd os
    (pf.1 ++ r.1, r.2)

/-! Observation helpers over traces. -/

/-- Is this event a `remove_dir_all` attempt? -/
def Event.isRem : Event → Bool
  | Event.removeDirAll _ _ => true
  | _ => false

/-- Is this event a `println`? -/
def Event.isPrint : Event → Bool
  | Event.print _ => true
  | _ => false

/-- Is this event a filesystem mutation (file creation, archive append,
or a delete attempt)? -/
def Event.isFsMut : Event → Bool
  | Event.createFile _ => true
  | Event.appendDirAll _ _ _ => true
  | Event.removeDirAll _ _ => true
  | _ => false

/-- Is this event the blocking read of one stdin line? -/
def Event.isReadLine : Event → Bool
  | Event.readLine => true
  | _ => false

/-- The subtrace of non-print events: everything the run does besides
writing text to stdout. -/
def nonPrints (t : List Event) : List Event :=
  t.filter (fun e => !e.isPrint)

/-- Checks that along the trace every `remove_dir_all` attempt on a path
is preceded by a successful `append_dir_all` rooted at that same path:
`armed` collects the archive roots built so far. -/
def remAfterApp (armed : List String) : List Event → Bool
  | [] => true
  | Event.appendDirAll _ root _ :: rest => remAfterApp (root :: armed) rest
  | Event.removeDirAll p _ :: rest => armed.contains p && remAfterApp armed rest
  | _ :: rest => remAfterApp armed rest

/-- The archive roots built after a trace, extending `armed`. -/
def armedAfter (armed : List String) : List Event → List String
  | [] => armed
  | Event.appendDirAll _ root _ :: rest => armedAfter (root :: armed) rest
  | _ :: rest => armedAfter armed rest

/-- The map `pathfinder` produces on a well-formed listing: one entry
per immediate subdirectory, keyed by base name plus `.tar`, valued by
the joined path and its contents. -/
def pfMap (cd : FsPath) (ds : List DirEntry) : List (String × SrcDir) :=
  (ds.filter (fun d => d.isDir)).map
    (fun d => (d.name.s ++ ".tar", SrcDir.mk (cd ++ [d.name]) d.contents))

/-- First slash-separated component of a string. -/
def firstComp (s : String) : String :=
  String.mk (s.toList.takeWhile (fun c => !(c == '/')))

/-- The error kinds the removal loop retries after operator
acknowledgment. -/
def RmOutcome.recoverable : RmOutcome → Bool
  | RmOutcome.busy => true
  | RmOutcome.permDenied => true
  | _ => false

/-! Theorems about the Removal Supervisor (`remove_dir`). -/

/-- C7: invoking `remove_dir` on a path whose delete attempt fails with
not-found terminates immediately as a success: the loop breaks after the
single attempt (the remaining outcomes are never consulted), no stdin
line is read, no prompt beyond the verbose status line is shown, and the
result is success, not an error. -/
theorem c7_not_found_success (p : String) (v : Bool) (rest : List RmOutcome) :
    remove_dir p v (RmOutcome.notFound :: rest) =
      (vprint v ("Attempting to remove folder: " ++ p) ++
        [Event.removeDirAll p RmOutcome.notFound] ++
        vprint v ("Folder not found: " ++ p), RmResult.success) ∧
    (remove_dir p v (RmOutcome.notFound :: rest)).2 = RmResult.success ∧
    ((remove_dir p v (RmOutcome.notFound :: rest)).1.filter
      (fun e => e.isReadLine)) = [] ∧
    ((remove_dir p v (RmOutcome.notFound :: rest)).1.filter
      (fun e => e.isRem)).length = 1 := by
  refine ⟨?_, ?_, ?_, ?_⟩ <;>
    cases v <;>
      simp [remove_dir, vprint, Event.isReadLine, Event.isRem]

/-- C5: when a delete attempt fails with a recoverable error (busy or
permission denied) the loop emits prompt text, blocks reading one line
from stdin, and re-attempts; as long as only recoverable errors occur
the loop keeps retrying, one stdin read per failed attempt, and never
ends in success or abandonment. -/
theorem c5_recoverable_retry (p : String) (v : Bool) (o : RmOutcome)
    (rest outs : List RmOutcome) :
    (o.recoverable = true →
      ∃ prompts : List Event,
        prompts ≠ [] ∧ (∀ e ∈ prompts, e.isPrint = true) ∧
        remove_dir p v (o :: rest) =
          (vprint v ("Attempting to remove folder: " ++ p) ++
            [Event.removeDirAll p o] ++ prompts ++ [Event.readLine] ++
            (remove_dir p v rest).1,
           (remove_dir p v rest).2)) ∧
    ((∀ x ∈ outs, x.recoverable = true) →
      (remove_dir p v outs).2 = RmResult.pending ∧
      ((remove_dir p v outs).1.filter (fun e => e.isRem)).length =
        outs.length ∧
      ((remove_dir p v outs).1.filter (fun e => e.isReadLine)).length =
        outs.length) := by
  constructor
  · intro hrec
    cases o <;> simp [RmOutcome.recoverable] at hrec
    · exact ⟨[Event.print ("Folder is busy: " ++ p),
        Event.print "Please close any open files in the folder and press Enter to retry."],
        by simp, by simp [Event.isPrint],
        by simp [remove_dir]⟩
    · exact ⟨[Event.print ("Permission denied: " ++ p),
        Event.print "Please check your permissions (you may have a file open inside the directory) and press Enter to retry."],
        by simp, by simp [Event.isPrint],
        by simp [remove_dir]⟩
  · intro hall
    induction outs with
    | nil => cases v <;> simp [remove_dir, Event.isRem, Event.isReadLine, vprint]
    | cons x xs ih =>
      have hx : x.recoverable = true := hall x (by simp)
      have hxs : ∀ y ∈ xs, y.recoverable = true := fun y hy => hall y (by simp [hy])
      obtain ⟨h1, h2, h3⟩ := ih hxs
      cases x <;> simp [RmOutcome.recoverable] at hx <;>
        cases v <;>
          simp [remove_dir, Event.isRem, Event.isReadLine, vprint, h1] at h2 h3 ⊢ <;>
            omega

/-- Closed instance of `c5_recoverable_retry` at a concrete input. -/
theorem c5_witness :
    RmOutcome.busy.recoverable = true ∧
    (∃ prompts : List Event,
        prompts ≠ [] ∧ (∀ e ∈ prompts, e.isPrint = true) ∧
        remove_dir "p" false (RmOutcome.busy :: []) =
          (vprint false ("Attempting to remove folder: " ++ "p") ++
            [Event.removeDirAll "p" RmOutcome.busy] ++ prompts ++
            [Event.readLine] ++ (remove_dir "p" false []).1,
           (remove_dir "p" false []).2)) ∧
    (remove_dir "p" false [RmOutcome.busy]).2 = RmResult.pending :=
  ⟨by decide,
   (c5_recoverable_retry "p" false RmOutcome.busy [] [RmOutcome.busy]).1 (by decide),
   ((c5_recoverable_retry "p" false RmOutcome.busy [] [RmOutcome.busy]).2
      (by decide)).1⟩

/-- After a successful archive build (create and append both succeed)
the processing of one map entry never aborts, whatever the removal
outcomes are. -/
theorem tarballEntry_ok_snd (v remove : Bool) (cd : FsPath)
    (kv : String × SrcDir) (rms : List RmOutcome) (fp cds : String)
    (hfp : pathToStr kv.2.path = some fp) (hcd : pathToStr cd = some cds) :
    (tarballEntry false v remove cd kv (EntryOracle.mk true true rms)).2 = none := by
  cases remove <;> simp [tarballEntry, hfp, hcd]

/-- C6 counterexample: with verbose off, an unclassified removal error
produces no print at all, so the error is not logged; the claim that it
is always logged fails at this input (the removal is still abandoned
without crashing). -/
theorem c6_counterexample :
    (remove_dir "p" false [RmOutcome.other "boom"]).1 =
      [Event.removeDirAll "p" (RmOutcome.other "boom")] ∧
    ((remove_dir "p" false [RmOutcome.other "boom"]).1.filter
      (fun e => e.isPrint)) = [] ∧
    (remove_dir "p" false [RmOutcome.other "boom"]).2 =
      RmResult.abandoned "boom" := by
  refine ⟨rfl, rfl, rfl⟩

/-- C6 (amended): on a delete attempt failing with an error kind other
than not-found, busy or permission-denied, the error is logged only
when verbose is enabled, the removal of that entry terminates
immediately as abandoned (no retry, the remaining outcomes are never
consulted), the run does not crash, and the orchestrator proceeds to
the next entry exactly as if this entry had finished. -/
theorem c6_other_error_abandons (p : String) (v : Bool) (msg : String)
    (rest : List RmOutcome) (cd : FsPath) (kv : String × SrcDir)
    (m : List (String × SrcDir)) (os : List EntryOracle) (fp cds : String)
    (hfp : pathToStr kv.2.path = some fp) (hcd : pathToStr cd = some cds) :
    remove_dir p v (RmOutcome.other msg :: rest) =
      (vprint v ("Attempting to remove folder: " ++ p) ++
        [Event.removeDirAll p (RmOutcome.other msg)] ++
        vprint v ("Error removing folder: " ++ msg), RmResult.abandoned msg) ∧
    (tarballer false v true (kv :: m) cd
        (EntryOracle.mk true true (RmOutcome.other msg :: rest) :: os)).2 =
      (tarballer false v true m cd os).2 ∧
    (tarballer false v true (kv :: m) cd
        (EntryOracle.mk true true (RmOutcome.other msg :: rest) :: os)).1 =
      (tarballEntry false v true cd kv
        (EntryOracle.mk true true (RmOutcome.other msg :: rest))).1 ++
      (tarballer false v true m cd os).1 := by
  have h := tarballEntry_ok_snd v true cd kv (RmOutcome.other msg :: rest) fp cds hfp hcd
  refine ⟨by simp [remove_dir], ?_, ?_⟩ <;> simp [tarballer, h]

/-- Closed instance of `c6_other_error_abandons` at a concrete input. -/
theorem c6_witness :
    remove_dir "p" false (RmOutcome.other "boom" :: []) =
      (vprint false ("Attempting to remove folder: " ++ "p") ++
        [Event.removeDirAll "p" (RmOutcome.other "boom")] ++
        vprint false ("Error removing folder: " ++ "boom"),
       RmResult.abandoned "boom") ∧
    (tarballer false false true
        [("a.tar", SrcDir.mk [OsStr.mk "." true, OsStr.mk "a" true] [])]
        [OsStr.mk "." true]
        [EntryOracle.mk true true (RmOutcome.other "boom" :: [])]).2 =
      (tarballer false false true [] [OsStr.mk "." true] []).2 :=
  ⟨(c6_other_error_abandons "p" false "boom" [] [OsStr.mk "." true]
      ("a.tar", SrcDir.mk [OsStr.mk "." true, OsStr.mk "a" true] [])
      [] [] "./a" "." rfl rfl).1,
   (c6_other_error_abandons "p" false "boom" [] [OsStr.mk "." true]
      ("a.tar", SrcDir.mk [OsStr.mk "." true, OsStr.mk "a" true] [])
      [] [] "./a" "." rfl rfl).2.1⟩

/-- C8 counterexample: with target directory `t` holding subdirectory
`a` with one file `f.txt`, the archive is built with in-archive root
`t/a`, so the first path component of every archive entry name is `t`,
the ancestor, and not the base name `a`; the claim fails at this
input. -/
theorem c8_counterexample :
    (tarballEntry false false false [OsStr.mk "t" true]
        ("a.tar", SrcDir.mk [OsStr.mk "t" true, OsStr.mk "a" true] ["f.txt"])
        (EntryOracle.mk true true [])).1 =
      [Event.createFile "t/a.tar",
       Event.appendDirAll "t/a.tar" "t/a" ["t/a", "t/a/f.txt"]] ∧
    firstComp "t/a" = "t" ∧
    ¬ firstComp "t/a" = "a" := by
  refine ⟨rfl, rfl, by decide⟩

/-- C8 (amended): the entry names inside the produced tar archive are
rooted at the source directory path exactly as it was passed to the
builder, that is at the full folder path (the target directory path
followed by the base name), not at the bare base name: every entry name
is that full path or that full path extended by a relative entry. -/
theorem c8_archive_rooted_at_full_path (v remove : Bool) (cd : FsPath)
    (kv : String × SrcDir) (o : EntryOracle) (fp cds : String)
    (hfp : pathToStr kv.2.path = some fp) (hcd : pathToStr cd = some cds)
    (hc : o.createOk = true) (ha : o.appendOk = true) :
    Event.appendDirAll (cds ++ "/" ++ kv.1) fp
        (archiveEntryNames fp kv.2.contents) ∈
      (tarballEntry false v remove cd kv o).1 ∧
    ∀ n ∈ archiveEntryNames fp kv.2.contents,
      n = fp ∨ ∃ rel ∈ kv.2.contents, n = fp ++ "/" ++ rel := by
  obtain ⟨co, ao, rms⟩ := o
  cases hc
  cases ha
  constructor
  · cases remove <;> simp [tarballEntry, hfp, hcd]
  · intro n hn
    simp only [archiveEntryNames, List.mem_cons, List.mem_map] at hn
    rcases hn with h | ⟨rel, hrel, hr⟩
    · exact Or.inl h
    · exact Or.inr ⟨rel, hrel, hr.symm⟩

/-- Closed instance of `c8_archive_rooted_at_full_path` at a concrete
input. -/
theorem c8_witness :
    Event.appendDirAll ("t" ++ "/" ++ "a.tar") "t/a"
        (archiveEntryNames "t/a" ["f.txt"]) ∈
      (tarballEntry false false false [OsStr.mk "t" true]
        ("a.tar", SrcDir.mk [OsStr.mk "t" true, OsStr.mk "a" true] ["f.txt"])
        (EntryOracle.mk true true [RmOutcome.ok])).1 :=
  (c8_archive_rooted_at_full_path false false [OsStr.mk "t" true]
    ("a.tar", SrcDir.mk [OsStr.mk "t" true, OsStr.mk "a" true] ["f.txt"])
    (EntryOracle.mk true true [RmOutcome.ok]) "t/a" "t" rfl rfl rfl rfl).1

/-! Ordering of removal after archiving. -/

/-- `remAfterApp` distributes over trace concatenation, threading the
built archive roots. -/
theorem remAfterApp_append (t1 t2 : List Event) :
    ∀ armed : List String,
      remAfterApp armed (t1 ++ t2) =
        (remAfterApp armed t1 && remAfterApp (armedAfter armed t1) t2) := by
  induction t1 with
  | nil => intro armed; simp [remAfterApp, armedAfter]
  | cons e t ih =>
    intro armed
    cases e <;> simp [remAfterApp, armedAfter, ih, Bool.and_assoc]

/-- `armedAfter` distributes over trace concatenation. -/
theorem armedAfter_append (t1 t2 : List Event) :
    ∀ armed : List String,
      armedAfter armed (t1 ++ t2) = armedAfter (armedAfter armed t1) t2 := by
  induction t1 with
  | nil => intro armed; simp [armedAfter]
  | cons e t ih => intro armed; cases e <;> simp [armedAfter, ih]

/-- Verbose-guarded prints neither remove nor archive. -/
theorem remAfterApp_vprint (armed : List String) (v : Bool) (s : String) :
    remAfterApp armed (vprint v s) = true := by
  cases v <;> simp [vprint, remAfterApp]

/-- Verbose-guarded prints leave the built archive roots unchanged. -/
theorem armedAfter_vprint (armed : List String) (v : Bool) (s : String) :
    armedAfter armed (vprint v s) = armed := by
  cases v <;> simp [vprint, armedAfter]

/-- Every delete attempt made by `remove_dir p` is on `p`, so the whole
removal trace is ordering-safe once an archive rooted at `p` exists. -/
theorem remove_dir_remAfterApp (p : String) (v : Bool) (outs : List RmOutcome) :
    ∀ armed : List String, p ∈ armed →
      remAfterApp armed (remove_dir p v outs).1 = true := by
  induction outs with
  | nil => intro armed _; exact remAfterApp_vprint armed v _
  | cons o os ih =>
    intro armed h
    cases o <;> cases v <;>
      simp [remove_dir, remAfterApp_append, armedAfter_append, remAfterApp,
        armedAfter, vprint, h, ih armed h]

/-- Processing one map entry in non-dry mode only ever attempts a
removal after its own successful archive append. -/
theorem tarballEntry_remAfterApp (v remove : Bool) (cd : FsPath)
    (kv : String × SrcDir) (o : EntryOracle) (armed : List String) :
    remAfterApp armed (tarballEntry false v remove cd kv o).1 = true := by
  rcases h1 : pathToStr kv.2.path with _ | fp
  · simp [tarballEntry, h1, remAfterApp_vprint]
  · rcases h2 : pathToStr cd with _ | cds
    · simp [tarballEntry, h1, h2, remAfterApp_append, armedAfter_vprint,
        remAfterApp_vprint]
    · obtain ⟨co, ao, rms⟩ := o
      cases co <;> cases ao <;> cases remove <;>
        simp [tarballEntry, h1, h2, remAfterApp_append, armedAfter_append,
          remAfterApp_vprint, armedAfter_vprint, remAfterApp, armedAfter,
          remove_dir_remAfterApp]

/-- Over the whole per-entry loop, every delete attempt is preceded by
a successful archive append rooted at the very path being deleted. -/
theorem tarballer_remAfterApp (v remove : Bool) (cd : FsPath) :
    ∀ (m : List (String × SrcDir)) (os : List EntryOracle)
      (armed : List String),
      remAfterApp armed (tarballer false v remove m cd os).1 = true := by
  intro m
  induction m with
  | nil => intro os armed; simp [tarballer, remAfterApp]
  | cons kv rest ih =>
    intro os armed
    rcases hr : (tarballEntry false v remove cd kv
      (os.head?.getD defaultOracle)).2 with _ | msg
    · simp [tarballer, hr, remAfterApp_append, tarballEntry_remAfterApp, ih]
    · simp [tarballer, hr, tarballEntry_remAfterApp]

/-- With the remove flag unset, processing one entry makes no delete
attempt at all. -/
theorem tarballEntry_noRem (dry v : Bool) (cd : FsPath) (kv : String × SrcDir)
    (o : EntryOracle) :
    (tarballEntry dry v false cd kv o).1.all (fun e => !e.isRem) = true := by
  rcases h1 : pathToStr kv.2.path with _ | fp
  · cases v <;> simp [tarballEntry, h1, vprint, Event.isRem]
  · rcases h2 : pathToStr cd with _ | cds
    · cases v <;> simp [tarballEntry, h1, h2, vprint, Event.isRem]
    · obtain ⟨co, ao, rms⟩ := o
      cases dry <;> cases co <;> cases ao <;> cases v <;>
        simp [tarballEntry, h1, h2, vprint, Event.isRem]

/-- With the remove flag unset, the whole loop makes no delete
attempt. -/
theorem tarballer_noRem (dry v : Bool) (cd : FsPath) :
    ∀ (m : List (String × SrcDir)) (os : List EntryOracle),
      (tarballer dry v false m cd os).1.all (fun e => !e.isRem) = true := by
  intro m
  induction m with
  | nil => intro os; simp [tarballer]
  | cons kv rest ih =>
    intro os
    rcases hr : (tarballEntry dry v false cd kv
      (os.head?.getD defaultOracle)).2 with _ | msg
    · simp [tarballer, hr, tarballEntry_noRem, ih]
    · simp [tarballer, hr, tarballEntry_noRem]

/-- C1: in a non-dry run, every delete attempt in the trace is on a path
for which a successful archive append (rooted at that same path) occurs
strictly earlier in the trace, and with the remove flag unset no delete
attempt occurs at all. -/
theorem c1_remove_after_archive (v remove : Bool) (m : List (String × SrcDir))
    (cd : FsPath) (os : List EntryOracle) :
    remAfterApp [] (tarballer false v remove m cd os).1 = true ∧
    (remove = false →
      (tarballer false v remove m cd os).1.all (fun e => !e.isRem) = true) := by
  constructor
  · exact tarballer_remAfterApp v remove cd m os []
  · intro h
    cases h
    exact tarballer_noRem false v cd m os

/-- Closed instance of `c1_remove_after_archive` at a concrete input. -/
theorem c1_witness :
    remAfterApp [] (tarballer false false false
      [("a.tar", SrcDir.mk [OsStr.mk "." true, OsStr.mk "a" true] ["f.txt"])]
      [OsStr.mk "." true] [defaultOracle]).1 = true ∧
    (tarballer false false false
      [("a.tar", SrcDir.mk [OsStr.mk "." true, OsStr.mk "a" true] ["f.txt"])]
      [OsStr.mk "." true] [defaultOracle]).1.all (fun e => !e.isRem) = true :=
  ⟨(c1_remove_after_archive false false
      [("a.tar", SrcDir.mk [OsStr.mk "." true, OsStr.mk "a" true] ["f.txt"])]
      [OsStr.mk "." true] [defaultOracle]).1,
   (c1_remove_after_archive false false
      [("a.tar", SrcDir.mk [OsStr.mk "." true, OsStr.mk "a" true] ["f.txt"])]
      [OsStr.mk "." true] [defaultOracle]).2 rfl⟩

/-- C4: when the archive build for the entry at the head of the loop
fails (file creation fails, or the append fails), the run aborts: the
result is a process abort, the trace is exactly the failing entry trace
(no later entry contributes any event), and no delete attempt occurs. -/
theorem c4_archive_failure_fatal (v remove : Bool) (cd : FsPath)
    (kv : String × SrcDir) (rest : List (String × SrcDir)) (o : EntryOracle)
    (os : List EntryOracle) (fp cds : String)
    (hfp : pathToStr kv.2.path = some fp) (hcd : pathToStr cd = some cds)
    (hfail : o.createOk = false ∨ o.appendOk = false) :
    (tarballer false v remove (kv :: rest) cd (o :: os)).2.isSome = true ∧
    (tarballer false v remove (kv :: rest) cd (o :: os)).1 =
      (tarballEntry false v remove cd kv o).1 ∧
    (tarballer false v remove (kv :: rest) cd (o :: os)).1.all
      (fun e => !e.isRem) = true := by
  obtain ⟨co, ao, rms⟩ := o
  simp only at hfail
  cases co
  · refine ⟨?_, ?_, ?_⟩ <;>
      cases v <;>
        simp [tarballer, tarballEntry, hfp, hcd, vprint, Event.isRem]
  · cases ao
    · refine ⟨?_, ?_, ?_⟩ <;>
        cases v <;>
          simp [tarballer, tarballEntry, hfp, hcd, vprint, Event.isRem]
    · simp at hfail

/-- Closed instance of `c4_archive_failure_fatal` at a concrete input. -/
theorem c4_witness :
    (tarballer false false false
      [("a.tar", SrcDir.mk [OsStr.mk "." true, OsStr.mk "a" true] []),
       ("b.tar", SrcDir.mk [OsStr.mk "." true, OsStr.mk "b" true] [])]
      [OsStr.mk "." true]
      [EntryOracle.mk false true [], defaultOracle]).2.isSome = true ∧
    (tarballer false false false
      [("a.tar", SrcDir.mk [OsStr.mk "." true, OsStr.mk "a" true] []),
       ("b.tar", SrcDir.mk [OsStr.mk "." true, OsStr.mk "b" true] [])]
      [OsStr.mk "." true]
      [EntryOracle.mk false true [], defaultOracle]).1 =
      (tarballEntry false false false [OsStr.mk "." true]
        ("a.tar", SrcDir.mk [OsStr.mk "." true, OsStr.mk "a" true] [])
        (EntryOracle.mk false true [])).1 :=
  ⟨(c4_archive_failure_fatal false false [OsStr.mk "." true]
      ("a.tar", SrcDir.mk [OsStr.mk "." true, OsStr.mk "a" true] [])
      [("b.tar", SrcDir.mk [OsStr.mk "." true, OsStr.mk "b" true] [])]
      (EntryOracle.mk false true []) [defaultOracle] "./a" "."
      rfl rfl (Or.inl rfl)).1,
   (c4_archive_failure_fatal false false [OsStr.mk "." true]
      ("a.tar", SrcDir.mk [OsStr.mk "." true, OsStr.mk "a" true] [])
      [("b.tar", SrcDir.mk [OsStr.mk "." true, OsStr.mk "b" true] [])]
      (EntryOracle.mk false true []) [defaultOracle] "./a" "."
      rfl rfl (Or.inl rfl)).2.1⟩

/-! Characterization of the Directory Scanner. -/

/-- Appending a fixed suffix to a string is injective. -/
theorem tarSuffixInjective : Function.Injective (fun s : String => s ++ ".tar") := by
  intro a b h
  apply String.ext
  have h2 : a.data ++ ".tar".data = b.data ++ ".tar".data := by
    have := congrArg String.data h
    simpa [String.data_append] using this
  exact List.append_cancel_right h2

/-- The first scanner loop keeps exactly the entries classified as
directories, in enumeration order. -/
theorem pathfinderScan_snd (v : Bool) (cd : FsPath) :
    ∀ ds : List DirEntry,
      (pathfinderScan v cd ds).2 = ds.filter (fun d => d.isDir) := by
  intro ds
  induction ds with
  | nil => simp [pathfinderScan]
  | cons d rest ih =>
    rcases hd : d.isDir with _ | _ <;>
      simp [pathfinderScan, hd, ih, List.filter_cons]

/-- Inserting a fresh key into the association-list map appends it. -/
theorem insertAL_of_not_mem (m : List (String × SrcDir)) (k : String)
    (val : SrcDir) (h : k ∉ m.map Prod.fst) :
    insertAL m k val = m ++ [(k, val)] := by
  have hany : m.any (fun kv => kv.1 == k) = false := by
    apply List.any_eq_false.mpr
    intro kv hkv he
    exact h ((eq_of_beq he) ▸ List.mem_map_of_mem Prod.fst hkv)
  simp [insertAL, hany]

/-- On directory entries whose base names are valid UTF-8, pairwise
distinct, and fresh for the accumulator, the second scanner loop
returns the accumulator extended by one map entry per directory. -/
theorem pathfinderBuild_ok (v : Bool) (cd : FsPath) :
    ∀ (fs : List DirEntry) (m : List (String × SrcDir)),
      (∀ d ∈ fs, d.name.utf8 = true) →
      (fs.map (fun d => d.name.s)).Nodup →
      (∀ d ∈ fs, (d.name.s ++ ".tar") ∉ m.map Prod.fst) →
      (pathfinderBuild v cd m fs).2 =
        Except.ok (m ++ fs.map (fun d =>
          (d.name.s ++ ".tar", SrcDir.mk (cd ++ [d.name]) d.contents))) := by
  intro fs
  induction fs with
  | nil => intro m _ _ _; simp [pathfinderBuild]
  | cons d rest ih =>
    intro m hu hnd hfresh
    have hget : (cd ++ [d.name] : FsPath).getLast? = some d.name :=
      List.getLast?_concat _
    have hts : d.name.toStr = some d.name.s := by
      simp [OsStr.toStr, hu d (by simp)]
    have hins := insertAL_of_not_mem m (d.name.s ++ ".tar")
      (SrcDir.mk (cd ++ [d.name]) d.contents) (hfresh d (by simp))
    have hnd2 : d.name.s ∉ rest.map (fun d => d.name.s) ∧
        (rest.map (fun d => d.name.s)).Nodup := by
      rw [List.map_cons, List.nodup_cons] at hnd
      exact hnd
    have hrec := ih (m ++ [(d.name.s ++ ".tar", SrcDir.mk (cd ++ [d.name]) d.contents)])
      (fun x hx => hu x (by simp [hx]))
      hnd2.2
      (by
        intro x hx
        simp only [List.map_append, List.mem_append, List.map_cons, List.map_nil,
          List.mem_singleton, not_or]
        refine ⟨hfresh x (by simp [hx]), ?_⟩
        intro he
        exact hnd2.1 (tarSuffixInjective he ▸ List.mem_map_of_mem (fun d => d.name.s) hx))
    simp [pathfinderBuild, hget, hts, hins, hrec]

/-- On a listing whose subdirectory names are valid UTF-8 and pairwise
distinct, `pathfinder` returns exactly the expected map. -/
theorem pathfinder_ok (v : Bool) (cd : FsPath) (ds : List DirEntry)
    (hu : ∀ d ∈ ds.filter (fun d => d.isDir), d.name.utf8 = true)
    (hnd : ((ds.filter (fun d => d.isDir)).map (fun d => d.name.s)).Nodup) :
    (pathfinder v cd ds).2 = Except.ok (pfMap cd ds) := by
  have hb := pathfinderBuild_ok v cd (ds.filter (fun d => d.isDir)) [] hu hnd
    (by simp)
  simp [pathfinder, pathfinderScan_snd, hb, pfMap]

/-- C3: on a directory tree whose immediate subdirectory names are
valid UTF-8 and pairwise distinct (as directory listings guarantee),
the scanner returns a map with exactly one key per immediate
subdirectory: the key count equals the subdirectory count, keys are
pairwise distinct and are the base names with a `.tar` suffix, each
subdirectory contributes its own path as value, the result is unchanged
by adding or removing non-directory entries, and permuting the
enumeration permutes the keys (same key set). -/
theorem c3_scanner_mapping (v : Bool) (cd : FsPath) (ds ds2 dsp : List DirEntry)
    (hu : ∀ d ∈ ds, d.isDir = true → d.name.utf8 = true)
    (hnd : (ds.map (fun d => d.name)).Nodup) :
    (pathfinder v cd ds).2 = Except.ok (pfMap cd ds) ∧
    (pfMap cd ds).length = (ds.filter (fun d => d.isDir)).length ∧
    ((pfMap cd ds).map Prod.fst).Nodup ∧
    (pfMap cd ds).map Prod.fst =
      (ds.filter (fun d => d.isDir)).map (fun d => d.name.s ++ ".tar") ∧
    (∀ d ∈ ds, d.isDir = true →
      (d.name.s ++ ".tar", SrcDir.mk (cd ++ [d.name]) d.contents) ∈ pfMap cd ds) ∧
    (ds2.filter (fun d => d.isDir) = ds.filter (fun d => d.isDir) →
      (pathfinder v cd ds2).2 = Except.ok (pfMap cd ds)) ∧
    (ds.Perm dsp →
      ∃ mp, (pathfinder v cd dsp).2 = Except.ok mp ∧
        (mp.map Prod.fst).Perm ((pfMap cd ds).map Prod.fst)) := by
  have hu' : ∀ d ∈ ds.filter (fun d => d.isDir), d.name.utf8 = true := by
    intro d hd
    have := List.mem_filter.mp hd
    exact hu d this.1 this.2
  have hndos : ((ds.filter (fun d => d.isDir)).map (fun d => d.name)).Nodup :=
    hnd.sublist ((List.filter_sublist ds).map (fun d => d.name))
  have hnd' : ((ds.filter (fun d => d.isDir)).map (fun d => d.name.s)).Nodup := by
    have heq : (ds.filter (fun d => d.isDir)).map (fun d => d.name.s) =
        ((ds.filter (fun d => d.isDir)).map (fun d => d.name)).map
          (fun o => o.s) := by
      simp [List.map_map]
    rw [heq]
    apply hndos.map_on
    intro x hx y hy hxy
    obtain ⟨dx, hdx, hdxe⟩ := List.mem_map.mp hx
    obtain ⟨dy, hdy, hdye⟩ := List.mem_map.mp hy
    have hxu : x.utf8 = true := hdxe ▸ hu' dx hdx
    have hyu : y.utf8 = true := hdye ▸ hu' dy hdy
    obtain ⟨xs, xu⟩ := x
    obtain ⟨ys, yu⟩ := y
    simp only at hxy hxu hyu
    rw [hxy, hxu, hyu]
  refine ⟨pathfinder_ok v cd ds hu' hnd', ?_, ?_, ?_, ?_, ?_, ?_⟩
  · simp [pfMap]
  · have : (pfMap cd ds).map Prod.fst =
        ((ds.filter (fun d => d.isDir)).map (fun d => d.name.s)).map
          (fun s => s ++ ".tar") := by
      simp [pfMap, List.map_map]
    rw [this]
    exact hnd'.map tarSuffixInjective
  · simp [pfMap, List.map_map]
  · intro d hd hdir
    have : d ∈ ds.filter (fun d => d.isDir) := List.mem_filter.mpr ⟨hd, hdir⟩
    exact List.mem_map_of_mem _ this
  · intro hfil
    have hu2 : ∀ d ∈ ds2.filter (fun d => d.isDir), d.name.utf8 = true := by
      rw [hfil]; exact hu'
    have hnd2 : ((ds2.filter (fun d => d.isDir)).map (fun d => d.name.s)).Nodup := by
      rw [hfil]; exact hnd'
    have := pathfinder_ok v cd ds2 hu2 hnd2
    rw [this]
    have : pfMap cd ds2 = pfMap cd ds := by
      simp only [pfMap, hfil]
    rw [this]
  · intro hperm
    have hpf : (ds.filter (fun d => d.isDir)).Perm
        (dsp.filter (fun d => d.isDir)) := hperm.filter _
    have hup : ∀ d ∈ dsp.filter (fun d => d.isDir), d.name.utf8 = true := by
      intro d hd
      exact hu' d (hpf.mem_iff.mpr hd)
    have hndp : ((dsp.filter (fun d => d.isDir)).map (fun d => d.name.s)).Nodup :=
      ((hpf.map (fun d => d.name.s)).nodup_iff).mp hnd'
    refine ⟨pfMap cd dsp, pathfinder_ok v cd dsp hup hndp, ?_⟩
    have : ((pfMap cd dsp).map Prod.fst).Perm
        ((pfMap cd ds).map Prod.fst) := by
      simp only [pfMap, List.map_map]
      exact (hpf.symm.map _)
    exact this

/-- Closed instance of `c3_scanner_mapping` at a concrete input: a root
with subdirectories `a`, `b` and a file `c.txt`. -/
theorem c3_witness :
    (pathfinder false [OsStr.mk "." true]
      [DirEntry.mk (OsStr.mk "a" true) true ["f.txt"],
       DirEntry.mk (OsStr.mk "b" true) true [],
       DirEntry.mk (OsStr.mk "c.txt" true) false []]).2 =
      Except.ok (pfMap [OsStr.mk "." true]
        [DirEntry.mk (OsStr.mk "a" true) true ["f.txt"],
         DirEntry.mk (OsStr.mk "b" true) true [],
         DirEntry.mk (OsStr.mk "c.txt" true) false []]) ∧
    (pfMap [OsStr.mk "." true]
      [DirEntry.mk (OsStr.mk "a" true) true ["f.txt"],
       DirEntry.mk (OsStr.mk "b" true) true [],
       DirEntry.mk (OsStr.mk "c.txt" true) false []]).length = 2 :=
  ⟨(c3_scanner_mapping false [OsStr.mk "." true]
      [DirEntry.mk (OsStr.mk "a" true) true ["f.txt"],
       DirEntry.mk (OsStr.mk "b" true) true [],
       DirEntry.mk (OsStr.mk "c.txt" true) false []] [] []
      (by decide) (by decide)).1,
   by
    have h := (c3_scanner_mapping false [OsStr.mk "." true]
      [DirEntry.mk (OsStr.mk "a" true) true ["f.txt"],
       DirEntry.mk (OsStr.mk "b" true) true [],
       DirEntry.mk (OsStr.mk "c.txt" true) false []] [] []
      (by decide) (by decide)).2.1
    simpa using h⟩

/-! Dry-run behaviour. -/

/-- A trace made of prints contains no filesystem mutation. -/
theorem allPrint_noFsMut (t : List Event) (h : t.all (fun e => e.isPrint) = true) :
    t.all (fun e => !e.isFsMut) = true := by
  apply List.all_eq_true.mpr
  intro e he
  have hp := List.all_eq_true.mp h e he
  cases e <;> simp_all [Event.isPrint, Event.isFsMut]

/-- The first scanner loop only prints. -/
theorem pathfinderScan_printsOnly (v : Bool) (cd : FsPath) :
    ∀ ds : List DirEntry,
      (pathfinderScan v cd ds).1.all (fun e => e.isPrint) = true := by
  intro ds
  induction ds with
  | nil => simp [pathfinderScan]
  | cons d rest ih =>
    rcases hd : d.isDir with _ | _ <;> cases v <;>
      simp_all [pathfinderScan, hd, vprint, Event.isPrint]

/-- The second scanner loop only prints. -/
theorem pathfinderBuild_printsOnly (v : Bool) (cd : FsPath) :
    ∀ (ds : List DirEntry) (m : List (String × SrcDir)),
      (pathfinderBuild v cd m ds).1.all (fun e => e.isPrint) = true := by
  intro ds
  induction ds with
  | nil => intro m; simp [pathfinderBuild]
  | cons d rest ih =>
    intro m
    have hg : (cd ++ [d.name] : FsPath).getLast? = some d.name :=
      List.getLast?_concat _
    rcases ht : d.name.toStr with _ | fn
    · simp [pathfinderBuild, hg, ht]
    · have hrec := ih (insertAL m (fn ++ ".tar")
        (SrcDir.mk (cd ++ [d.name]) d.contents))
      cases v <;> simp_all [pathfinderBuild, hg, ht, vprint, Event.isPrint]

/-- The scanner only prints: it performs no filesystem mutation. -/
theorem pathfinder_printsOnly (v : Bool) (cd : FsPath) (ds : List DirEntry) :
    (pathfinder v cd ds).1.all (fun e => e.isPrint) = true := by
  have h1 := pathfinderScan_printsOnly v cd ds
  have h2 := pathfinderBuild_printsOnly v cd (pathfinderScan v cd ds).2 []
  rcases hb : (pathfinderBuild v cd [] (pathfinderScan v cd ds).2).2 with msg | m <;>
    cases v <;>
      simp_all [pathfinder, vprint, Event.isPrint]

/-- In dry mode, processing one entry emits only prints. -/
theorem tarballEntry_dry_printsOnly (v remove : Bool) (cd : FsPath)
    (kv : String × SrcDir) (o : EntryOracle) :
    (tarballEntry true v remove cd kv o).1.all (fun e => e.isPrint) = true := by
  rcases h1 : pathToStr kv.2.path with _ | fp
  · cases v <;> simp [tarballEntry, h1, vprint, Event.isPrint]
  · rcases h2 : pathToStr cd with _ | cds
    · cases v <;> simp [tarballEntry, h1, h2, vprint, Event.isPrint]
    · cases remove <;> cases v <;>
        simp [tarballEntry, h1, h2, vprint, Event.isPrint]

/-- In dry mode, the whole loop emits only prints. -/
theorem tarballer_dry_printsOnly (v remove : Bool) (cd : FsPath) :
    ∀ (m : List (String × SrcDir)) (os : List EntryOracle),
      (tarballer true v remove m cd os).1.all (fun e => e.isPrint) = true := by
  intro m
  induction m with
  | nil => intro os; simp [tarballer]
  | cons kv rest ih =>
    intro os
    rcases hr : (tarballEntry true v remove cd kv
      (os.head?.getD defaultOracle)).2 with _ | msg
    · simp [tarballer, hr, tarballEntry_dry_printsOnly, ih]
    · simp [tarballer, hr, tarballEntry_dry_printsOnly]

/-- In dry mode the processing of one entry with convertible paths is
exactly the report, and never aborts. -/
theorem tarballEntry_dry_eq (v remove : Bool) (cd : FsPath)
    (kv : String × SrcDir) (o : EntryOracle) (fp cds : String)
    (hfp : pathToStr kv.2.path = some fp) (hcd : pathToStr cd = some cds) :
    tarballEntry true v remove cd kv o =
      (vprint v ("Tarball name: " ++ kv.1) ++
        vprint v ("Folder path: " ++ fp) ++
        vprint v ("Tarball path: " ++ (cds ++ "/" ++ kv.1)) ++
        vprint v ("Tarball path as String: " ++ (cds ++ "/" ++ kv.1)) ++
        [Event.print ("Dry run - would tarball folder: " ++ fp),
         Event.print (if remove then "Dry run - would remove folder: " ++ fp
           else "Dry run - would NOT remove folder: " ++ fp)], none) := by
  simp [tarballEntry, hfp, hcd]

/-- In dry mode, each map entry with convertible paths gets its two
report lines in the loop trace. -/
theorem tarballer_dry_reports (v remove : Bool) (cd : FsPath) (cds : String)
    (hcd : pathToStr cd = some cds) :
    ∀ (m : List (String × SrcDir)) (os : List EntryOracle),
      (∀ kv ∈ m, (pathToStr kv.2.path).isSome = true) →
      ∀ kv ∈ m, ∀ fp, pathToStr kv.2.path = some fp →
        Event.print ("Dry run - would tarball folder: " ++ fp) ∈
          (tarballer true v remove m cd os).1 ∧
        Event.print (if remove then "Dry run - would remove folder: " ++ fp
            else "Dry run - would NOT remove folder: " ++ fp) ∈
          (tarballer true v remove m cd os).1 := by
  intro m
  induction m with
  | nil => intro os _ kv hkv; simp at hkv
  | cons hd rest ih =>
    intro os hall kv hkv fp hfp
    have hhd : ∃ fphd, pathToStr hd.2.path = some fphd := by
      have := hall hd (by simp)
      rcases hh : pathToStr hd.2.path with _ | fphd
      · rw [hh] at this; simp at this
      · exact ⟨fphd, rfl⟩
    obtain ⟨fphd, hfphd⟩ := hhd
    have hent := tarballEntry_dry_eq v remove cd hd
      (os.head?.getD defaultOracle) fphd cds hfphd hcd
    rcases List.mem_cons.mp hkv with he | hrest
    · subst he
      have heq : fp = fphd := by rw [hfp] at hfphd; injection hfphd
      subst heq
      constructor <;>
        · simp only [tarballer, hent, List.headD_eq_head?_getD]
          simp
    · have hrec := ih os.tail (fun x hx => hall x (by simp [hx])) kv hrest fp hfp
      constructor
      · have h := hrec.1
        simp only [tarballer, hent, List.headD_eq_head?_getD]
        simp only [List.mem_append]
        tauto
      · have h := hrec.2
        simp only [tarballer, hent, List.headD_eq_head?_getD]
        simp only [List.mem_append]
        tauto

/-- C2: with the dry-run flag enabled the whole run performs no
filesystem mutation whatever the directory state and flags are; and on
a well-formed listing (UTF-8, distinct sibling names) every discovered
subdirectory gets a report line saying it would be archived and a
separate line saying whether it would be removed, following the remove
flag. -/
theorem c2_dry_run_no_mutation (v remove : Bool) (cd : FsPath)
    (ds : List DirEntry) (os : List EntryOracle) :
    (runTarballer v true remove cd ds os).1.all (fun e => !e.isFsMut) = true ∧
    ((∀ c ∈ cd, c.utf8 = true) →
     (∀ d ∈ ds, d.isDir = true → d.name.utf8 = true) →
     (ds.map (fun d => d.name)).Nodup →
     ∀ d ∈ ds, d.isDir = true →
       Event.print ("Dry run - would tarball folder: " ++
           pathRepr (cd ++ [d.name])) ∈ (runTarballer v true remove cd ds os).1 ∧
       Event.print (if remove then "Dry run - would remove folder: " ++
             pathRepr (cd ++ [d.name])
           else "Dry run - would NOT remove folder: " ++
             pathRepr (cd ++ [d.name])) ∈
         (runTarballer v true remove cd ds os).1) := by
  constructor
  · have h1 := allPrint_noFsMut _ (pathfinder_printsOnly v cd ds)
    rcases hp : (pathfinder v cd ds).2 with msg | m
    · simp only [runTarballer, hp]
      exact h1
    · have h2 := allPrint_noFsMut _ (tarballer_dry_printsOnly v remove cd m os)
      simp only [runTarballer, hp]
      simp [List.all_append, h1, h2]
  · intro hc hu hnd d hd hdir
    have hcdall : cd.all (fun c => c.utf8) = true :=
      List.all_eq_true.mpr (fun c hcm => hc c hcm)
    have hcd : pathToStr cd = some (pathRepr cd) := by
      simp [pathToStr, hcdall]
    have hufp : ((cd ++ [d.name] : FsPath)).all (fun c => c.utf8) = true := by
      simp [List.all_append, hcdall, hu d hd hdir]
    have hfp : pathToStr (cd ++ [d.name]) = some (pathRepr (cd ++ [d.name])) := by
      simp [pathToStr, hufp]
    have hu' : ∀ x ∈ ds.filter (fun d => d.isDir), x.name.utf8 = true := by
      intro x hx
      have := List.mem_filter.mp hx
      exact hu x this.1 this.2
    have hndos : ((ds.filter (fun d => d.isDir)).map (fun d => d.name)).Nodup :=
      hnd.sublist ((List.filter_sublist ds).map (fun d => d.name))
    have hnd' : ((ds.filter (fun d => d.isDir)).map (fun d => d.name.s)).Nodup := by
      have heq : (ds.filter (fun d => d.isDir)).map (fun d => d.name.s) =
          ((ds.filter (fun d => d.isDir)).map (fun d => d.name)).map
            (fun o => o.s) := by
        simp [List.map_map]
      rw [heq]
      apply hndos.map_on
      intro x hx y hy hxy
      obtain ⟨dx, hdx, hdxe⟩ := List.mem_map.mp hx
      obtain ⟨dy, hdy, hdye⟩ := List.mem_map.mp hy
      have hxu : x.utf8 = true := hdxe ▸ hu' dx hdx
      have hyu : y.utf8 = true := hdye ▸ hu' dy hdy
      obtain ⟨xs, xu⟩ := x
      obtain ⟨ys, yu⟩ := y
      simp only at hxy hxu hyu
      rw [hxy, hxu, hyu]
    have hpfok := pathfinder_ok v cd ds hu' hnd'
    have hall : ∀ kv ∈ pfMap cd ds, (pathToStr kv.2.path).isSome = true := by
      intro kv hkv
      obtain ⟨x, hx, he⟩ := List.mem_map.mp hkv
      have hx' := List.mem_filter.mp hx
      have hax : ((cd ++ [x.name] : FsPath)).all (fun c => c.utf8) = true := by
        simp [List.all_append, hcdall, hu x hx'.1 hx'.2]
      rw [← he]
      simp [pathToStr, hax]
    have hkvmem : (d.name.s ++ ".tar", SrcDir.mk (cd ++ [d.name]) d.contents) ∈
        pfMap cd ds :=
      List.mem_map_of_mem _ (List.mem_filter.mpr ⟨hd, hdir⟩)
    have hrep := tarballer_dry_reports v remove cd (pathRepr cd) hcd
      (pfMap cd ds) os hall _ hkvmem (pathRepr (cd ++ [d.name])) hfp
    constructor
    · simp only [runTarballer, hpfok]
      exact List.mem_append.mpr (Or.inr hrep.1)
    · simp only [runTarballer, hpfok]
      exact List.mem_append.mpr (Or.inr hrep.2)

/-- Closed instance of `c2_dry_run_no_mutation` at a concrete input. -/
theorem c2_witness :
    (runTarballer false true true [OsStr.mk "." true]
      [DirEntry.mk (OsStr.mk "a" true) true [],
       DirEntry.mk (OsStr.mk "c.txt" true) false []] []).1.all
      (fun e => !e.isFsMut) = true ∧
    Event.print ("Dry run - would tarball folder: " ++
        pathRepr ([OsStr.mk "." true] ++ [OsStr.mk "a" true])) ∈
      (runTarballer false true true [OsStr.mk "." true]
        [DirEntry.mk (OsStr.mk "a" true) true [],
         DirEntry.mk (OsStr.mk "c.txt" true) false []] []).1 :=
  ⟨(c2_dry_run_no_mutation false true [OsStr.mk "." true]
      [DirEntry.mk (OsStr.mk "a" true) true [],
       DirEntry.mk (OsStr.mk "c.txt" true) false []] []).1,
   ((c2_dry_run_no_mutation false true [OsStr.mk "." true]
      [DirEntry.mk (OsStr.mk "a" true) true [],
       DirEntry.mk (OsStr.mk "c.txt" true) false []] []).2
      (by decide) (by decide) (by decide)
      (DirEntry.mk (OsStr.mk "a" true) true []) (by decide) rfl).1⟩

/-! Verbose non-interference. -/

/-- The non-print subtrace distributes over concatenation. -/
theorem nonPrints_append (a b : List Event) :
    nonPrints (a ++ b) = nonPrints a ++ nonPrints b := by
  simp [nonPrints]

/-- Verbose-guarded prints leave no non-print event. -/
theorem nonPrints_vprint (v : Bool) (s : String) :
    nonPrints (vprint v s) = [] := by
  cases v <;> simp [nonPrints, vprint, Event.isPrint]

/-- A print-only trace has an empty non-print subtrace. -/
theorem allPrint_nonPrints (t : List Event)
    (h : t.all (fun e => e.isPrint) = true) : nonPrints t = [] := by
  apply List.filter_eq_nil_iff.mpr
  intro e he
  have := List.all_eq_true.mp h e he
  simp_all

/-- The removal loop does exactly the same attempts and stdin reads,
and returns the same result, whatever the verbose flag is. -/
theorem remove_dir_vIrrel (p : String) (v v' : Bool) :
    ∀ outs : List RmOutcome,
      nonPrints (remove_dir p v outs).1 = nonPrints (remove_dir p v' outs).1 ∧
      (remove_dir p v outs).2 = (remove_dir p v' outs).2 := by
  intro outs
  induction outs with
  | nil => simp [remove_dir, nonPrints_vprint]
  | cons o os ih =>
    obtain ⟨ih1, ih2⟩ := ih
    simp only [nonPrints] at ih1 ⊢
    cases o <;> cases v <;> cases v' <;>
      simp_all [remove_dir, vprint, Event.isPrint, List.filter_append]

/-- Processing one map entry makes the same filesystem calls and stdin
reads, and aborts identically, whatever the verbose flag is. -/
theorem tarballEntry_vIrrel (dry remove : Bool) (v v' : Bool) (cd : FsPath)
    (kv : String × SrcDir) (o : EntryOracle) :
    nonPrints (tarballEntry dry v remove cd kv o).1 =
      nonPrints (tarballEntry dry v' remove cd kv o).1 ∧
    (tarballEntry dry v remove cd kv o).2 =
      (tarballEntry dry v' remove cd kv o).2 := by
  rcases h1 : pathToStr kv.2.path with _ | fp
  · simp [tarballEntry, h1, nonPrints_vprint]
  · rcases h2 : pathToStr cd with _ | cds
    · simp [tarballEntry, h1, h2, nonPrints_append, nonPrints_vprint]
    · obtain ⟨co, ao, rms⟩ := o
      obtain ⟨hr1, hr2⟩ := remove_dir_vIrrel fp v v' rms
      simp only [nonPrints] at hr1 ⊢
      cases dry <;> cases co <;> cases ao <;> cases remove <;>
        cases v <;> cases v' <;>
          simp_all [tarballEntry, h1, h2, vprint, Event.isPrint,
            List.filter_append]

/-- The whole per-entry loop makes the same filesystem calls and stdin
reads, and aborts identically, whatever the verbose flag is. -/
theorem tarballer_vIrrel (dry remove : Bool) (v v' : Bool) (cd : FsPath) :
    ∀ (m : List (String × SrcDir)) (os : List EntryOracle),
      nonPrints (tarballer dry v remove m cd os).1 =
        nonPrints (tarballer dry v' remove m cd os).1 ∧
      (tarballer dry v remove m cd os).2 =
        (tarballer dry v' remove m cd os).2 := by
  intro m
  induction m with
  | nil => intro os; simp [tarballer]
  | cons kv rest ih =>
    intro os
    obtain ⟨he1, he2⟩ := tarballEntry_vIrrel dry remove v v' cd kv
      (os.head?.getD defaultOracle)
    obtain ⟨hi1, hi2⟩ := ih os.tail
    rcases hr : (tarballEntry dry v remove cd kv
      (os.head?.getD defaultOracle)).2 with _ | msg
    · have hr' : (tarballEntry dry v' remove cd kv
          (os.head?.getD defaultOracle)).2 = none := by
        rw [← he2]; exact hr
      simp [tarballer, hr, hr', nonPrints_append, he1, hi1, hi2]
    · have hr' : (tarballEntry dry v' remove cd kv
          (os.head?.getD defaultOracle)).2 = some msg := by
        rw [← he2]; exact hr
      simp [tarballer, hr, hr', he1]

/-- The second scanner loop returns the same map whatever the verbose
flag is. -/
theorem pathfinderBuild_vIrrel (v v' : Bool) (cd : FsPath) :
    ∀ (ds : List DirEntry) (m : List (String × SrcDir)),
      (pathfinderBuild v cd m ds).2 = (pathfinderBuild v' cd m ds).2 := by
  intro ds
  induction ds with
  | nil => intro m; simp [pathfinderBuild]
  | cons d rest ih =>
    intro m
    have hg : (cd ++ [d.name] : FsPath).getLast? = some d.name :=
      List.getLast?_concat _
    rcases ht : d.name.toStr with _ | fn
    · simp [pathfinderBuild, hg, ht]
    · simp [pathfinderBuild, hg, ht, ih]

/-- The scanner returns the same map whatever the verbose flag is. -/
theorem pathfinder_vIrrel (v v' : Bool) (cd : FsPath) (ds : List DirEntry) :
    (pathfinder v cd ds).2 = (pathfinder v' cd ds).2 := by
  have key : (pathfinderBuild v cd [] (pathfinderScan v cd ds).2).2 =
      (pathfinderBuild v' cd [] (pathfinderScan v' cd ds).2).2 := by
    rw [pathfinderScan_snd, pathfinderScan_snd]
    exact pathfinderBuild_vIrrel v v' cd _ []
  rcases hx : (pathfinderBuild v' cd [] (pathfinderScan v' cd ds).2).2
    with msg | m <;>
    · have hy := key.trans hx
      simp [pathfinder, hx, hy]

/-- C9: the filesystem effects of a run (file creations, archive
appends, delete attempts, stdin reads), the abort status, and the
scanner result map are identical whether the verbose flag is on or off;
the flag only changes the printed text. -/
theorem c9_verbose_noninterference (v v' dry remove : Bool) (cd : FsPath)
    (ds : List DirEntry) (os : List EntryOracle) :
    nonPrints (runTarballer v dry remove cd ds os).1 =
      nonPrints (runTarballer v' dry remove cd ds os).1 ∧
    (runTarballer v dry remove cd ds os).2 =
      (runTarballer v' dry remove cd ds os).2 ∧
    (pathfinder v cd ds).2 = (pathfinder v' cd ds).2 := by
  have hpf := pathfinder_vIrrel v v' cd ds
  have hnp1 := allPrint_nonPrints _ (pathfinder_printsOnly v cd ds)
  have hnp2 := allPrint_nonPrints _ (pathfinder_printsOnly v' cd ds)
  rcases hx : (pathfinder v' cd ds).2 with msg | m
  · have hy := hpf.trans hx
    simp [runTarballer, hx, hy, hnp1, hnp2, nonPrints_append, hpf]
  · have hy := hpf.trans hx
    obtain ⟨ht1, ht2⟩ := tarballer_vIrrel dry remove v v' cd m os
    simp [runTarballer, hx, hy, nonPrints_append, hnp1, hnp2, ht1, ht2, hpf]

/-! Non-UTF-8 names. -/

/-- A non-UTF-8 base name among the kept subdirectories makes the
second scanner loop abort the process. -/
theorem pathfinderBuild_err (v : Bool) (cd : FsPath) :
    ∀ (fs : List DirEntry) (m : List (String × SrcDir)),
      (∃ d ∈ fs, d.name.utf8 = false) →
      ∃ msg, (pathfinderBuild v cd m fs).2 = Except.error msg := by
  intro fs
  induction fs with
  | nil => intro m h; simp at h
  | cons d rest ih =>
    intro m h
    have hg : (cd ++ [d.name] : FsPath).getLast? = some d.name :=
      List.getLast?_concat _
    rcases hu : d.name.utf8 with _ | _
    · refine ⟨"called Option.unwrap on a None value", ?_⟩
      simp [pathfinderBuild, hg, OsStr.toStr, hu]
    · obtain ⟨x, hx, hxu⟩ := h
      rcases List.mem_cons.mp hx with he | hrest
      · subst he
        rw [hu] at hxu
        exact absurd hxu (by simp)
      · obtain ⟨msg, hmsg⟩ := ih (insertAL m (d.name.s ++ ".tar")
          (SrcDir.mk (cd ++ [d.name]) d.contents)) ⟨x, hrest, hxu⟩
        refine ⟨msg, ?_⟩
        simp [pathfinderBuild, hg, OsStr.toStr, hu, hmsg]

/-- Every pair in the map after an insert is the inserted value or was
already present. -/
theorem insertAL_values (m : List (String × SrcDir)) (k : String)
    (val : SrcDir) : ∀ kv ∈ insertAL m k val, kv.2 = val ∨ kv ∈ m := by
  intro kv hkv
  by_cases hany : m.any (fun x => x.1 == k) = true
  · simp only [insertAL, hany, if_true] at hkv
    obtain ⟨x, hx, hxe⟩ := List.mem_map.mp hkv
    by_cases hxk : x.1 == k
    · rw [if_pos hxk] at hxe
      exact Or.inl (by rw [← hxe])
    · rw [if_neg hxk] at hxe
      exact Or.inr (hxe ▸ hx)
  · simp only [insertAL, hany, if_false, Bool.not_eq_true] at hkv
    rcases List.mem_append.mp hkv with hin | hone
    · exact Or.inr hin
    · have : kv = (k, val) := by simpa using hone
      exact Or.inl (by rw [this])

/-- Inserting never shrinks the map and leaves it nonempty. -/
theorem insertAL_length (m : List (String × SrcDir)) (k : String)
    (val : SrcDir) :
    m.length ≤ (insertAL m k val).length ∧ 1 ≤ (insertAL m k val).length := by
  by_cases hany : m.any (fun x => x.1 == k) = true
  · obtain ⟨x, hx, _⟩ := List.any_eq_true.mp hany
    have hpos : 0 < m.length := List.length_pos_of_mem hx
    refine ⟨?_, ?_⟩
    · simp [insertAL, hany]
    · simp [insertAL, hany]
      omega
  · constructor <;> simp [insertAL, hany]

/-- On kept subdirectories with UTF-8 base names the second scanner
loop succeeds with a nonempty map whose values are all paths joined
under the root. -/
theorem pathfinderBuild_okShape (v : Bool) (cd : FsPath) :
    ∀ (fs : List DirEntry) (m : List (String × SrcDir)),
      (∀ d ∈ fs, d.name.utf8 = true) →
      (∀ kv ∈ m, ∃ nm, kv.2.path = cd ++ [nm]) →
      ∃ mp, (pathfinderBuild v cd m fs).2 = Except.ok mp ∧
        (∀ kv ∈ mp, ∃ nm, kv.2.path = cd ++ [nm]) ∧
        m.length ≤ mp.length ∧ (fs ≠ [] → 1 ≤ mp.length) := by
  intro fs
  induction fs with
  | nil =>
    intro m _ hm
    exact ⟨m, by simp [pathfinderBuild], hm, le_refl _, fun h => absurd rfl h⟩
  | cons d rest ih =>
    intro m hu hm
    have hg : (cd ++ [d.name] : FsPath).getLast? = some d.name :=
      List.getLast?_concat _
    have hts : d.name.toStr = some d.name.s := by
      simp [OsStr.toStr, hu d (by simp)]
    have hm1 : ∀ kv ∈ insertAL m (d.name.s ++ ".tar")
        (SrcDir.mk (cd ++ [d.name]) d.contents), ∃ nm, kv.2.path = cd ++ [nm] := by
      intro kv hkv
      rcases insertAL_values m _ _ kv hkv with hv | hin
      · exact ⟨d.name, by rw [hv]⟩
      · exact hm kv hin
    obtain ⟨mp, hok, hshape, hlen, _⟩ := ih (insertAL m (d.name.s ++ ".tar")
      (SrcDir.mk (cd ++ [d.name]) d.contents)) (fun x hx => hu x (by simp [hx])) hm1
    obtain ⟨hl1, hl2⟩ := insertAL_length m (d.name.s ++ ".tar")
      (SrcDir.mk (cd ++ [d.name]) d.contents)
    refine ⟨mp, ?_, hshape, le_trans hl1 hlen, fun _ => le_trans hl2 hlen⟩
    simp [pathfinderBuild, hg, hts, hok]

/-- A head entry whose folder path is not valid UTF-8 aborts the loop
at the path conversion, in dry mode as well. -/
theorem tarballer_headPanic (dry v remove : Bool) (cd : FsPath)
    (kv : String × SrcDir) (rest : List (String × SrcDir))
    (os : List EntryOracle) (h : pathToStr kv.2.path = none) :
    (tarballer dry v remove (kv :: rest) cd os).2.isSome = true := by
  simp [tarballer, tarballEntry, h]

/-- A non-UTF-8 base name on some subdirectory makes the run abort. -/
theorem runTarballer_err_of_bad_name (v dry remove : Bool) (cd : FsPath)
    (ds : List DirEntry) (os : List EntryOracle)
    (h : ∃ d ∈ ds, d.isDir = true ∧ d.name.utf8 = false) :
    (runTarballer v dry remove cd ds os).2.isSome = true := by
  obtain ⟨d, hd, hdir, hna⟩ := h
  obtain ⟨msg, herr⟩ := pathfinderBuild_err v cd (ds.filter (fun x => x.isDir)) []
    ⟨d, List.mem_filter.mpr ⟨hd, hdir⟩, hna⟩
  have h2 : (pathfinderBuild v cd [] (pathfinderScan v cd ds).2).2 =
      Except.error msg := by
    rw [pathfinderScan_snd]
    exact herr
  have hp : (pathfinder v cd ds).2 = Except.error msg := by
    simp [pathfinder, h2]
  simp [runTarballer, hp]

/-- C10 counterexample: a non-UTF-8 root whose listing holds no
subdirectory is never converted to a string, so the run completes
without aborting; the claim that the run panics fails at this input. -/
theorem c10_counterexample :
    pathToStr [OsStr.mk "bad" false] = none ∧
    (runTarballer false false false [OsStr.mk "bad" false]
      [DirEntry.mk (OsStr.mk "c.txt" true) false []] []).2 = none := by
  refine ⟨rfl, rfl⟩

/-- C10 (amended): if some immediate subdirectory has a non-UTF-8 base
name the run aborts in the scanner; if the root path itself is not
valid UTF-8 and at least one immediate subdirectory exists, the run
aborts when converting the first folder path; in both cases the process
aborts rather than skipping the entry or reporting a typed error (but a
non-UTF-8 root over a listing without subdirectories aborts nothing). -/
theorem c10_bad_names_panic (v dry remove : Bool) (cd : FsPath)
    (ds : List DirEntry) (os : List EntryOracle)
    (h : (∃ d ∈ ds, d.isDir = true ∧ d.name.utf8 = false) ∨
         (cd.all (fun c => c.utf8) = false ∧ ∃ d ∈ ds, d.isDir = true)) :
    (runTarballer v dry remove cd ds os).2.isSome = true := by
  rcases h with h | ⟨hcd, d, hd, hdir⟩
  · exact runTarballer_err_of_bad_name v dry remove cd ds os h
  · by_cases hex : ∃ x ∈ ds, x.isDir = true ∧ x.name.utf8 = false
    · exact runTarballer_err_of_bad_name v dry remove cd ds os hex
    · have hu : ∀ x ∈ ds.filter (fun y => y.isDir), x.name.utf8 = true := by
        intro x hx
        have hm := List.mem_filter.mp hx
        rcases hxu : x.name.utf8 with _ | _
        · exact absurd ⟨x, hm.1, hm.2, hxu⟩ hex
        · rfl
      obtain ⟨mp, hok, hshape, _, hne⟩ := pathfinderBuild_okShape v cd
        (ds.filter (fun y => y.isDir)) [] hu (by simp)
      have hdf : d ∈ ds.filter (fun y => y.isDir) :=
        List.mem_filter.mpr ⟨hd, hdir⟩
      have hfil : ds.filter (fun y => y.isDir) ≠ [] := by
        intro hnil
        rw [hnil] at hdf
        simp at hdf
      have hlen := hne hfil
      have h2 : (pathfinderBuild v cd [] (pathfinderScan v cd ds).2).2 =
          Except.ok mp := by
        rw [pathfinderScan_snd]
        exact hok
      have hp : (pathfinder v cd ds).2 = Except.ok mp := by
        simp [pathfinder, h2]
      cases mp with
      | nil => simp at hlen
      | cons kv rest =>
        obtain ⟨nm, hnm⟩ := hshape kv (by simp)
        have hnone : pathToStr kv.2.path = none := by
          rw [hnm]
          simp [pathToStr, List.all_append, hcd]
        have := tarballer_headPanic dry v remove cd kv rest os hnone
        simp only [runTarballer, hp]
        exact this

/-- Closed instance of `c10_bad_names_panic` at a concrete input. -/
theorem c10_witness :
    (runTarballer false false false [OsStr.mk "." true]
      [DirEntry.mk (OsStr.mk "bad" false) true []] []).2.isSome = true :=
  c10_bad_names_panic false false false [OsStr.mk "." true]
    [DirEntry.mk (OsStr.mk "bad" false) true []] []
    (Or.inl ⟨DirEntry.mk (OsStr.mk "bad" false) true [], by simp, rfl, rfl⟩)
